import Mathlib

/-!
Verification of the FSA diagram-recognition pipeline in
`FLAbot/fsa_processor.py` against its natural-language specification.

Shallow embedding conventions
-----------------------------
The pipeline's own control flow, selection logic, ordering, deduplication,
tagging and label fall-back are translated faithfully from the Python
source.  Calls into OpenCV (image decoding, `HoughCircles`, `Canny`,
`HoughLinesP`, ring-pixel counting, `findContours`) are pure functions of
the input image, so each such call is represented by an explicit input of
the embedded function:

* `decodeOk` — whether `cv2.imread` succeeded (`original_image is None`);
* `circles`  — the candidate list returned by `detect_circles`
  (`HoughCircles` output: center `x`,`y` and radius `r`);
* the `lines` argument of `detect_initial_state_arrow` — the segments
  `HoughLinesP` finds in the region left of the leftmost candidate
  (the ROI cropping itself is an image operation and stays external);
* the `score` argument of `detect_double_circles` — the foreground pixel
  count under the two ring masks drawn at `radius-5` / `radius+5`
  (`inner_count + outer_count` in the source);
* the `contourCount` argument of `detect_double_circles` — the number of
  external contours `findContours` reports on the outer and inner ring
  masks (outer first, inner second);
* the `lines` argument of `detect_transitions` — the segments
  `HoughLinesP` finds on the threshold image with state disks blanked;
* `classify` — the result of `detect_small_character` at a given label
  search position (empty string when no contour passes the area filter);
* `renderOk` — whether persisting the annotated debug image
  (`cv2.imwrite` / `cv2.imshow`, lines 514-518) raised an exception;
  the surrounding `try` re-raises every exception, so a failure there
  aborts the call before `return fsa_data`.

Numeric comparisons in the source that go through `np.sqrt` or
`np.arctan2` are embedded by their exact integer equivalents
(squared-distance and slope comparisons), which agree with the real-valued
comparisons the source performs.
Python dictionaries compare by value, so circle candidates are compared by
value (`DecidableEq`) exactly as `==`/`!=`/`list.index` do in the source.
-/

namespace FLAbot

/-- Circle candidate as produced by `detect_circles`: center `(x, y)` and
radius `r`.  The derived `bbox` field of the Python dict is a function of
these and adds nothing to dict equality, so it is omitted. -/
structure Circle where
  x : Int
  y : Int
  r : Int
deriving DecidableEq, Repr

/-- Line segment `(x1, y1, x2, y2)` as returned by `cv2.HoughLinesP`. -/
structure Seg where
  x1 : Int
  y1 : Int
  x2 : Int
  y2 : Int
deriving DecidableEq, Repr

/-- Transition record built by `detect_transitions`.  The Python dict also
stores `midpoint`, `angle`, `source_idx` and `dest_idx`; those fields are
never read downstream (the final indices are recomputed with
`reordered_states.index`), so only the fields that matter are kept. -/
structure Trans where
  source : Circle
  destination : Circle
  x1 : Int
  y1 : Int
  x2 : Int
  y2 : Int
  labelPos : Int × Int
deriving DecidableEq, Repr

/-- One entry of the `states` list in the returned FSA data. -/
structure StateInfo where
  id : Nat
  type : List String
  center : Int × Int
  radius : Int
deriving DecidableEq, Repr

/-- One entry of the `transitions` list in the returned FSA data. -/
structure TransData where
  source : Nat
  destination : Nat
  label : String
deriving DecidableEq, Repr

/-- The structured result (`fsa_data`) of `process_fsa_image`. -/
structure FsaGraph where
  states : List StateInfo
  transitions : List TransData
deriving DecidableEq, Repr

/-- Rebuild the circle a `StateInfo` entry was made from. -/
def circOf (st : StateInfo) : Circle :=
  ⟨st.center.1, st.center.2, st.radius⟩

/-- Python `list.index`: index of the first element equal (by value) to
`a`.  The source only calls it on members, where it never raises. -/
def idxOf : List Circle → Circle → Nat
  | [], _ => 0
  | c :: rest, a => if c = a then 0 else idxOf rest a + 1

/-- Leftmost-candidate loop of `detect_initial_state_arrow` (lines 74-85):
`min_x` starts at infinity and is updated on strict `<`, so the first
candidate with minimal center x wins. -/
def findLeftmost : List Circle → Option Circle
  | [] => none
  | c :: rest => some (rest.foldl (fun b c2 => if c2.x < b.x then c2 else b) c)

/-- Angle test of line 108-109: `abs(np.arctan2(y2-y1, x2-x1)) < np.pi/6`.
For `dx > 0` this is `|dy|/dx < tan(30°)`, i.e. `3·dy² < dx²`; for
`dx = 0` it holds only for `dy = 0` (`arctan2(0,0) = 0` in numpy); for
`dx < 0` the absolute angle is at least `π/2` and the test fails. -/
def near_horizontal (s : Seg) : Bool :=
  let dx := s.x2 - s.x1
  let dy := s.y2 - s.y1
  (decide (0 < dx) && decide (3 * (dy * dy) < dx * dx)) ||
    (decide (dx = 0) && decide (dy = 0))

/-- Model of `detect_initial_state_arrow` (lines 69-112): pick the
leftmost candidate, then confirm it only if some segment found in the
region to its left passes the near-horizontal test; `lines` stands for
the `HoughLinesP` output on that region. -/
def detect_initial_state_arrow (states : List Circle) (lines : List Seg) :
    Option Circle :=
  match findLeftmost states with
  | none => none
  | some lm => if lines.any near_horizontal then some lm else none

/-- Scoring loop of `detect_double_circles` (lines 119-148):
`max_circle_score` starts at `0` and is replaced on strict `>`, so the
first candidate attaining the maximal score wins ties, and a candidate
whose score is `0` is never selected. -/
def bestFinalLoop (score : Circle → Nat) :
    List Circle → Option Circle → Nat → Option Circle
  | [], best, _ => best
  | c :: rest, best, m =>
      if m < score c then bestFinalLoop score rest (some c) (score c)
      else bestFinalLoop score rest best m

/-- Model of `detect_double_circles` (lines 114-171): score every
candidate by ring pixel count, keep the best, then confirm it only if
`findContours` reports exactly one external contour on each of the outer
(`radius+5`) and inner (`radius-5`) ring masks. -/
def detect_double_circles (states : List Circle) (score : Circle → Nat)
    (contourCount : Circle → Nat × Nat) : Option Circle :=
  match bestFinalLoop score states none 0 with
  | none => none
  | some b => if contourCount b = (1, 1) then some b else none

/-- Endpoint tolerance of lines 227/232: `abs(sqrt(d2) - radius) < 20`,
written with exact integer comparisons (`d2` is the squared distance). -/
def tol_ok (d2 : Int) (r : Int) : Bool :=
  decide (d2 < (r + 20) * (r + 20)) &&
    (decide (r < 20) || decide ((r - 20) * (r - 20) < d2))

/-- Squared distance between a circle center and a line endpoint. -/
def dist2 (cx cy px py : Int) : Int :=
  (cx - px) * (cx - px) + (cy - py) * (cy - py)

/-- Nearest-qualifying-state loop of lines 218-235 for one endpoint:
iterate the x-sorted states, and among those whose boundary is within the
20 px tolerance keep the one with strictly smallest distance (first wins
ties). -/
def findNearestLoop (px py : Int) :
    List Circle → Option (Circle × Int) → Option (Circle × Int)
  | [], best => best
  | c :: rest, none =>
      if tol_ok (dist2 c.x c.y px py) c.r then
        findNearestLoop px py rest (some (c, dist2 c.x c.y px py))
      else findNearestLoop px py rest none
  | c :: rest, some (b, bd) =>
      if tol_ok (dist2 c.x c.y px py) c.r then
        if dist2 c.x c.y px py < bd then
          findNearestLoop px py rest (some (c, dist2 c.x c.y px py))
        else findNearestLoop px py rest (some (b, bd))
      else findNearestLoop px py rest (some (b, bd))

/-- Nearest qualifying state for one endpoint. -/
def findNearest (states : List Circle) (px py : Int) : Option Circle :=
  (findNearestLoop px py states none).map Prod.fst

/-- Direction canonicalization of lines 207-210: swap endpoints if
`x2 < x1`. -/
def canonical (s : Seg) : Seg :=
  if s.x2 < s.x1 then ⟨s.x2, s.y2, s.x1, s.y1⟩ else s

/-- Main loop of `detect_transitions` (lines 204-265): for each line,
canonicalize, resolve both endpoints against the x-sorted states, drop
the segment if an endpoint is unresolved or source equals destination,
and accept the pair `(states.index(source), states.index(dest))` only if
it was not processed before.  `(x1+x2)//2` is Python floor division,
embedded as `Int.fdiv`. -/
def detectLoop (statesArg sorted : List Circle) :
    List Seg → List (Nat × Nat) → List Trans
  | [], _ => []
  | l :: rest, processed =>
      match findNearest sorted (canonical l).x1 (canonical l).y1,
          findNearest sorted (canonical l).x2 (canonical l).y2 with
      | some s, some d =>
          if s = d then detectLoop statesArg sorted rest processed
          else if (idxOf statesArg s, idxOf statesArg d) ∈ processed then
            detectLoop statesArg sorted rest processed
          else
            ⟨s, d, (canonical l).x1, (canonical l).y1, (canonical l).x2,
                (canonical l).y2,
                (((canonical l).x1 + (canonical l).x2).fdiv 2,
                  ((canonical l).y1 + (canonical l).y2).fdiv 2 - 20)⟩ ::
              detectLoop statesArg sorted rest
                ((idxOf statesArg s, idxOf statesArg d) :: processed)
      | _, _ => detectLoop statesArg sorted rest processed

/-- Model of `detect_transitions` (lines 173-266).  `lines` stands for
the `HoughLinesP` output on the threshold image with a disk of
`radius+5` blanked around every state (lines 180-196).  `sorted(states,
key=center x)` is Python's stable sort, embedded as insertion sort. -/
def detect_transitions (states : List Circle) (lines : List Seg) :
    List Trans :=
  let sorted := List.insertionSort (fun a b => a.x ≤ b.x) states
  detectLoop states sorted lines []

/-- Model of `extract_transition_label` (lines 360-387).  `detected` is
the string `detect_small_character` returned for the label search region;
when it is empty and more than one transition exists, the index-based
fallback assigns `chr(ord('a') + idx)` (the first two branches of the
source's if-chain coincide with that formula). -/
def extract_transition_label (detected : String) (idx total : Nat) :
    String :=
  if detected ≠ "" then detected
  else if 1 < total then
    if idx = 0 then "a"
    else if idx = 1 then "b"
    else String.mk [Char.ofNat (97 + idx)]
  else detected

/-- Tag computation of lines 437-443: `Initial` if the state equals the
initial designate, `Final` if it equals the final designate, `Normal`
when neither. -/
def stateTypes (ini fin : Option Circle) (c : Circle) : List String :=
  let t := (if ini = some c then ["Initial"] else []) ++
    (if fin = some c then ["Final"] else [])
  if t = [] then ["Normal"] else t

/-- Reordering of lines 411-419: initial designate first, then every
candidate differing (by value) from both designates in detection order,
then the final designate.  When both designates are the same candidate it
is appended twice. -/
def reorder_states (states : List Circle) (ini fin : Option Circle) :
    List Circle :=
  ini.toList ++
    states.filter (fun c => decide (some c ≠ ini) && decide (some c ≠ fin)) ++
    fin.toList

/-- The `state_info` construction of lines 431-462, with the running
index `i` of `enumerate` made explicit. -/
def mkStateInfoFrom (ini fin : Option Circle) :
    Nat → List Circle → List StateInfo
  | _, [] => []
  | i, c :: rest =>
      ⟨i, stateTypes ini fin c, (c.x, c.y), c.r⟩ ::
        mkStateInfoFrom ini fin (i + 1) rest

/-- The `state_info` list built by `process_fsa_image`. -/
def mkStateInfo (ini fin : Option Circle) (states : List Circle) :
    List StateInfo :=
  mkStateInfoFrom ini fin 0 states

/-- Stable sort of transitions by the source state's center x
(line 425). -/
def sortTransBySourceX (ts : List Trans) : List Trans :=
  List.insertionSort (fun a b => a.source.x ≤ b.source.x) ts

/-- The `transition_data` construction of lines 464-512: for the `i`-th
transition, recompute source and destination as
`reordered_states.index(...)` and attach the label produced by
`extract_transition_label` from the classification result at the label
search position. -/
def mkTransDataFrom (states : List Circle) (classify : Int × Int → String)
    (total : Nat) : Nat → List Trans → List TransData
  | _, [] => []
  | i, t :: rest =>
      ⟨idxOf states t.source, idxOf states t.destination,
        extract_transition_label (classify t.labelPos) i total⟩ ::
        mkTransDataFrom states classify total (i + 1) rest

/-- The structured data `process_fsa_image` assembles before it renders
the debug image (lines 401-512): detection, reordering, transition
detection, sorting and label extraction. -/
def assemble (circles : List Circle) (iniLines : List Seg)
    (score : Circle → Nat) (contourCount : Circle → Nat × Nat)
    (transLines : List Seg) (classify : Int × Int → String) : FsaGraph :=
  let ini := detect_initial_state_arrow circles iniLines
  let fin := detect_double_circles circles score contourCount
  let reordered := reorder_states circles ini fin
  let sortedTrans := sortTransBySourceX (detect_transitions reordered transLines)
  ⟨mkStateInfo ini fin reordered,
    mkTransDataFrom reordered classify sortedTrans.length 0 sortedTrans⟩

/-- Model of `process_fsa_image` (lines 389-528).  The two fatal checks
(`imread` returning `None`, empty circle list) become the two error
branches; everything inside the `try` after the data is assembled —
`cv2.imwrite` and `cv2.imshow` on the debug image — runs before
`return fsa_data` and its exceptions are re-raised by the `except`
clause, so a rendering failure (`renderOk = false`) yields an error
instead of the graph. -/
def process_fsa_image (decodeOk : Bool) (circles : List Circle)
    (iniLines : List Seg) (score : Circle → Nat)
    (contourCount : Circle → Nat × Nat) (transLines : List Seg)
    (classify : Int × Int → String) (renderOk : Bool) :
    Except String FsaGraph :=
  if !decodeOk then .error "Could not load image"
  else if circles = [] then .error "No states detected in the image"
  else if renderOk then
    .ok (assemble circles iniLines score contourCount transLines classify)
  else .error "failed to save debug image"

/-- Two ordered state-index pairs denote the same unordered pair. -/
def sameStatePairSet (p q : Nat × Nat) : Prop :=
  p = q ∨ (p.1 = q.2 ∧ p.2 = q.1)

/-- The candidate `b` attains the maximal score and is the first
candidate in detection order to do so. -/
def IsFirstMax (states : List Circle) (score : Circle → Nat) (b : Circle) :
    Prop :=
  ∃ pre post, states = pre ++ b :: post ∧
    (∀ c ∈ pre, score c < score b) ∧ ∀ c ∈ states, score c ≤ score b

/-! ### Helper lemmas -/

theorem foldl_leftmost_spec (l : List Circle) (b : Circle) :
    (l.foldl (fun b c2 => if c2.x < b.x then c2 else b) b = b ∨
      l.foldl (fun b c2 => if c2.x < b.x then c2 else b) b ∈ l) ∧
    (l.foldl (fun b c2 => if c2.x < b.x then c2 else b) b).x ≤ b.x ∧
    ∀ c ∈ l, (l.foldl (fun b c2 => if c2.x < b.x then c2 else b) b).x ≤ c.x := by
  induction l generalizing b with
  | nil => exact ⟨Or.inl rfl, le_refl _, by simp⟩
  | cons c l ih =>
    simp only [List.foldl_cons]
    by_cases hc : c.x < b.x
    · rw [if_pos hc]
      obtain ⟨hmem, hle, hall⟩ := ih c
      refine ⟨?_, ?_, ?_⟩
      · rcases hmem with h | h
        · exact Or.inr (by simp [h])
        · exact Or.inr (List.mem_cons_of_mem _ h)
      · omega
      · intro c' hc'
        rcases List.mem_cons.mp hc' with h | h
        · subst h; exact hle
        · exact hall c' h
    · rw [if_neg hc]
      obtain ⟨hmem, hle, hall⟩ := ih b
      refine ⟨?_, hle, ?_⟩
      · rcases hmem with h | h
        · exact Or.inl h
        · exact Or.inr (List.mem_cons_of_mem _ h)
      · intro c' hc'
        rcases List.mem_cons.mp hc' with h | h
        · subst h; omega
        · exact hall c' h

theorem findLeftmost_spec (states : List Circle) (h : states ≠ []) :
    ∃ m, findLeftmost states = some m ∧ m ∈ states ∧
      ∀ c ∈ states, m.x ≤ c.x := by
  cases states with
  | nil => exact absurd rfl h
  | cons c rest =>
    obtain ⟨hmem, hle, hall⟩ := foldl_leftmost_spec rest c
    refine ⟨_, rfl, ?_, ?_⟩
    · rcases hmem with h' | h'
      · rw [h']; exact List.mem_cons_self _ _
      · exact List.mem_cons_of_mem _ h'
    · intro c' hc'
      rcases List.mem_cons.mp hc' with h' | h'
      · subst h'; exact hle
      · exact hall c' h'

theorem bestFinalLoop_stable (score : Circle → Nat) (l : List Circle)
    (best : Option Circle) (m : Nat) (h : ∀ c ∈ l, ¬ m < score c) :
    bestFinalLoop score l best m = best := by
  induction l with
  | nil => rfl
  | cons c l ih =>
    rw [bestFinalLoop, if_neg (h c (List.mem_cons_self _ _))]
    exact ih fun c' hc' => h c' (List.mem_cons_of_mem _ hc')

theorem bestFinalLoop_reach (score : Circle → Nat) (pre : List Circle)
    (b : Circle) (post : List Circle) :
    ∀ (best : Option Circle) (m : Nat), (∀ c ∈ pre, score c < score b) →
    m < score b →
    bestFinalLoop score (pre ++ b :: post) best m =
      bestFinalLoop score post (some b) (score b) := by
  induction pre with
  | nil =>
    intro best m _ hm
    rw [List.nil_append, bestFinalLoop, if_pos hm]
  | cons c pre ih =>
    intro best m hpre hm
    rw [List.cons_append, bestFinalLoop]
    by_cases hc : m < score c
    · rw [if_pos hc]
      exact ih _ _ (fun c' hc' => hpre c' (List.mem_cons_of_mem _ hc'))
        (hpre c (List.mem_cons_self _ _))
    · rw [if_neg hc]
      exact ih _ _ (fun c' hc' => hpre c' (List.mem_cons_of_mem _ hc')) hm

/-! ### Claims C6, C7, C8, C9 -/

/-- C6: for every input image that decodes successfully but in which zero
circles are detected, the pipeline fails with the no-states error and
produces no graph. -/
theorem claim_c6 (iniLines : List Seg) (score : Circle → Nat)
    (contourCount : Circle → Nat × Nat) (transLines : List Seg)
    (classify : Int × Int → String) (renderOk : Bool) :
    process_fsa_image true [] iniLines score contourCount transLines
      classify renderOk = .error "No states detected in the image" := rfl

/-- C7: the initial-state resolver designates only the candidate of
minimal center x, and designates it exactly when some segment found in
the region to its left passes the near-horizontal (30 degree) test;
when no such segment is found, no candidate is designated initial. -/
theorem claim_c7 (states : List Circle) (lines : List Seg)
    (h : states ≠ []) :
    (∀ s, detect_initial_state_arrow states lines = some s →
      s ∈ states ∧ ∀ c ∈ states, s.x ≤ c.x) ∧
    ((detect_initial_state_arrow states lines).isSome ↔
      lines.any near_horizontal = true) := by
  obtain ⟨m, hm, hmem, hmin⟩ := findLeftmost_spec states h
  have heq : detect_initial_state_arrow states lines =
      if lines.any near_horizontal = true then some m else none := by
    unfold detect_initial_state_arrow
    rw [hm]
  rw [heq]
  by_cases hl : lines.any near_horizontal = true
  · rw [if_pos hl]
    refine ⟨?_, by simp [hl]⟩
    intro s hs
    obtain rfl : m = s := by injection hs
    exact ⟨hmem, hmin⟩
  · rw [if_neg hl]
    exact ⟨by intro s hs; exact Option.noConfusion hs, by simp [hl]⟩

theorem claim_c7_witness :
    ((detect_initial_state_arrow [⟨5, 5, 2⟩] [⟨0, 0, 10, 0⟩]).isSome ↔
      ([⟨0, 0, 10, 0⟩] : List Seg).any near_horizontal = true) :=
  (claim_c7 [⟨5, 5, 2⟩] [⟨0, 0, 10, 0⟩] (by decide)).2

/-- C8 (amended): among the candidates, the first one attaining the
maximal ring score is designated final exactly when both its ring masks
yield one contour — provided its score is positive; a zero maximal score
designates nothing, because the running maximum starts at zero and is
only beaten strictly. -/
theorem claim_c8_amended (states : List Circle) (score : Circle → Nat)
    (contourCount : Circle → Nat × Nat) (b : Circle)
    (hmax : IsFirstMax states score b) (hpos : 0 < score b) :
    detect_double_circles states score contourCount =
      if contourCount b = (1, 1) then some b else none := by
  obtain ⟨pre, post, rfl, hpre, hall⟩ := hmax
  unfold detect_double_circles
  rw [bestFinalLoop_reach score pre b post none 0 hpre hpos,
    bestFinalLoop_stable]
  intro c hc
  exact Nat.not_lt.mpr (hall c (by simp [hc]))

theorem claim_c8_witness :
    detect_double_circles [⟨50, 50, 30⟩] (fun _ => 7) (fun _ => (1, 1)) =
      some ⟨50, 50, 30⟩ := by
  have h := claim_c8_amended [⟨50, 50, 30⟩] (fun _ => 7) (fun _ => (1, 1))
    ⟨50, 50, 30⟩ ⟨[], [], rfl, by simp, by simp⟩ (by decide)
  simpa using h

/-- C8 (counterexample): when every candidate scores zero (no foreground
pixels under either ring mask), the resolver designates no final state,
although the claim — maximal score, first on ties, both contour counts
equal to one — would require the candidate to be designated. -/
theorem claim_c8_counterexample :
    ¬ ∀ (states : List Circle) (score : Circle → Nat)
        (contourCount : Circle → Nat × Nat) (b : Circle),
        IsFirstMax states score b →
        detect_double_circles states score contourCount =
          if contourCount b = (1, 1) then some b else none := by
  intro h
  have h2 := h [⟨100, 100, 40⟩] (fun _ => 0) (fun _ => (1, 1))
    ⟨100, 100, 40⟩ ⟨[], [], rfl, by simp, by simp⟩
  revert h2
  decide

/-- C9: when glyph classification returns the empty string, the label
falls back to the transition-index letter (`chr(ord('a') + idx)`) exactly
when more than one transition exists; with a single transition the label
stays empty. -/
theorem claim_c9 (idx total : Nat) :
    (extract_transition_label "" idx total =
        String.mk [Char.ofNat (97 + idx)] ↔ 1 < total) ∧
    (total = 1 → extract_transition_label "" idx total = "") := by
  have hne : ∀ k : Nat, String.mk [Char.ofNat (97 + k)] ≠ "" := by
    intro k h
    have := congrArg String.data h
    simp at this
  constructor
  · constructor
    · intro h
      by_contra ht
      rw [extract_transition_label, if_neg (by simp), if_neg ht] at h
      exact hne idx h.symm
    · intro ht
      rw [extract_transition_label, if_neg (by simp), if_pos ht]
      by_cases h0 : idx = 0
      · subst h0; decide
      · by_cases h1 : idx = 1
        · subst h1; decide
        · rw [if_neg h0, if_neg h1]
  · intro ht
    subst ht
    rw [extract_transition_label, if_neg (by simp), if_neg (by omega)]

theorem claim_c9_witness :
    extract_transition_label "" 1 3 = "b" ∧
      extract_transition_label "" 0 1 = "" :=
  ⟨((claim_c9 1 3).1.mpr (by decide)).trans (by decide),
    (claim_c9 0 1).2 rfl⟩

/-! ### Pipeline inversion and state-list lemmas -/

theorem process_ok_inv {decodeOk : Bool} {circles : List Circle}
    {iniLines : List Seg} {score : Circle → Nat}
    {contourCount : Circle → Nat × Nat} {transLines : List Seg}
    {classify : Int × Int → String} {renderOk : Bool} {g : FsaGraph}
    (hok : process_fsa_image decodeOk circles iniLines score contourCount
      transLines classify renderOk = .ok g) :
    g = assemble circles iniLines score contourCount transLines classify ∧
      circles ≠ [] ∧ decodeOk = true ∧ renderOk = true := by
  unfold process_fsa_image at hok
  split_ifs at hok with h1 h2 h3
  all_goals
    first
      | exact Except.noConfusion hok
      | exact ⟨by injection hok with h; exact h.symm, h2,
          by simpa using h1, h3⟩

theorem assemble_states (circles : List Circle) (iniLines : List Seg)
    (score : Circle → Nat) (contourCount : Circle → Nat × Nat)
    (transLines : List Seg) (classify : Int × Int → String) :
    (assemble circles iniLines score contourCount transLines
        classify).states =
      mkStateInfo (detect_initial_state_arrow circles iniLines)
        (detect_double_circles circles score contourCount)
        (reorder_states circles
          (detect_initial_state_arrow circles iniLines)
          (detect_double_circles circles score contourCount)) := rfl

theorem assemble_transitions (circles : List Circle) (iniLines : List Seg)
    (score : Circle → Nat) (contourCount : Circle → Nat × Nat)
    (transLines : List Seg) (classify : Int × Int → String) :
    (assemble circles iniLines score contourCount transLines
        classify).transitions =
      mkTransDataFrom
        (reorder_states circles
          (detect_initial_state_arrow circles iniLines)
          (detect_double_circles circles score contourCount))
        classify
        (sortTransBySourceX (detect_transitions
          (reorder_states circles
            (detect_initial_state_arrow circles iniLines)
            (detect_double_circles circles score contourCount))
          transLines)).length 0
        (sortTransBySourceX (detect_transitions
          (reorder_states circles
            (detect_initial_state_arrow circles iniLines)
            (detect_double_circles circles score contourCount))
          transLines)) := rfl

theorem mem_initial_stateTypes (ini fin : Option Circle) (c : Circle) :
    "Initial" ∈ stateTypes ini fin c ↔ ini = some c := by
  by_cases h1 : ini = some c <;> by_cases h2 : fin = some c <;>
    simp [stateTypes, h1, h2]

theorem mem_final_stateTypes (ini fin : Option Circle) (c : Circle) :
    "Final" ∈ stateTypes ini fin c ↔ fin = some c := by
  by_cases h1 : ini = some c <;> by_cases h2 : fin = some c <;>
    simp [stateTypes, h1, h2]

theorem stateTypes_ne_nil (ini fin : Option Circle) (c : Circle) :
    stateTypes ini fin c ≠ [] := by
  by_cases h1 : ini = some c <;> by_cases h2 : fin = some c <;>
    simp [stateTypes, h1, h2]

theorem mem_normal_stateTypes (ini fin : Option Circle) (c : Circle) :
    "Normal" ∈ stateTypes ini fin c ↔ (ini ≠ some c ∧ fin ≠ some c) := by
  by_cases h1 : ini = some c <;> by_cases h2 : fin = some c <;>
    simp [stateTypes, h1, h2]

theorem mkStateInfoFrom_length (ini fin : Option Circle) :
    ∀ (i : Nat) (l : List Circle),
      (mkStateInfoFrom ini fin i l).length = l.length
  | _, [] => rfl
  | i, _ :: rest => by
      rw [mkStateInfoFrom, List.length_cons, List.length_cons,
        mkStateInfoFrom_length ini fin (i + 1) rest]

theorem mkStateInfoFrom_append (ini fin : Option Circle) :
    ∀ (l₁ l₂ : List Circle) (i : Nat),
      mkStateInfoFrom ini fin i (l₁ ++ l₂) =
        mkStateInfoFrom ini fin i l₁ ++
          mkStateInfoFrom ini fin (i + l₁.length) l₂ := by
  intro l₁
  induction l₁ with
  | nil => intro l₂ i; simp [mkStateInfoFrom]
  | cons c rest ih =>
    intro l₂ i
    rw [List.cons_append, mkStateInfoFrom, mkStateInfoFrom, ih,
      List.cons_append, List.length_cons]
    have : i + 1 + rest.length = i + (rest.length + 1) := by omega
    rw [this]

theorem mkStateInfoFrom_map_circ (ini fin : Option Circle) :
    ∀ (i : Nat) (l : List Circle),
      (mkStateInfoFrom ini fin i l).map circOf = l
  | _, [] => rfl
  | i, c :: rest => by
      rw [mkStateInfoFrom, List.map_cons,
        mkStateInfoFrom_map_circ ini fin (i + 1) rest]
      rfl

theorem mkStateInfoFrom_map_id (ini fin : Option Circle) :
    ∀ (i : Nat) (l : List Circle),
      (mkStateInfoFrom ini fin i l).map (fun st => st.id) =
        List.range' i l.length
  | _, [] => rfl
  | i, c :: rest => by
      rw [mkStateInfoFrom, List.map_cons, List.length_cons,
        List.range'_succ, mkStateInfoFrom_map_id ini fin (i + 1) rest]

theorem mkStateInfoFrom_types (ini fin : Option Circle) :
    ∀ (i : Nat) (l : List Circle) (st : StateInfo),
      st ∈ mkStateInfoFrom ini fin i l →
        ∃ c ∈ l, st.type = stateTypes ini fin c := by
  intro i l
  induction l generalizing i with
  | nil => intro st h; exact absurd h (by simp [mkStateInfoFrom])
  | cons c rest ih =>
    intro st h
    rw [mkStateInfoFrom, List.mem_cons] at h
    rcases h with h | h
    · exact ⟨c, List.mem_cons_self _ _, by rw [h]⟩
    · obtain ⟨c', hc', ht⟩ := ih (i + 1) st h
      exact ⟨c', List.mem_cons_of_mem _ hc', ht⟩

theorem mkStateInfoFrom_countP (ini fin : Option Circle)
    (q : List String → Bool) :
    ∀ (i : Nat) (l : List Circle),
      (mkStateInfoFrom ini fin i l).countP (fun st => q st.type) =
        l.countP (fun c => q (stateTypes ini fin c))
  | _, [] => rfl
  | i, c :: rest => by
      rw [mkStateInfoFrom, List.countP_cons, List.countP_cons,
        mkStateInfoFrom_countP ini fin q (i + 1) rest]

theorem countP_reorder_initial (circles : List Circle)
    (ini fin : Option Circle)
    (hne : ¬ ∃ s, ini = some s ∧ fin = some s) :
    (reorder_states circles ini fin).countP
      (fun c => decide (ini = some c)) ≤ 1 := by
  rw [reorder_states, List.countP_append, List.countP_append]
  have hB : (circles.filter
      (fun c => decide (some c ≠ ini) && decide (some c ≠ fin))).countP
      (fun c => decide (ini = some c)) = 0 := by
    rw [List.countP_eq_zero]
    intro c hc
    have h1 := (List.mem_filter.mp hc).2
    rw [Bool.and_eq_true, decide_eq_true_eq, decide_eq_true_eq] at h1
    simp only [decide_eq_true_eq]
    exact fun h => h1.1 h.symm
  have hC : fin.toList.countP (fun c => decide (ini = some c)) = 0 := by
    cases fin with
    | none => rfl
    | some f =>
      rw [List.countP_eq_zero]
      intro c hc
      obtain rfl : c = f := by simpa [Option.toList] using hc
      simp only [decide_eq_true_eq]
      exact fun h => hne ⟨c, h, rfl⟩
  rw [hB, hC]
  cases ini with
  | none => simp
  | some s => simp [List.countP_cons]

theorem countP_reorder_final (circles : List Circle)
    (ini fin : Option Circle)
    (hne : ¬ ∃ s, ini = some s ∧ fin = some s) :
    (reorder_states circles ini fin).countP
      (fun c => decide (fin = some c)) ≤ 1 := by
  rw [reorder_states, List.countP_append, List.countP_append]
  have hA : ini.toList.countP (fun c => decide (fin = some c)) = 0 := by
    cases ini with
    | none => rfl
    | some s =>
      rw [List.countP_eq_zero]
      intro c hc
      obtain rfl : c = s := by simpa [Option.toList] using hc
      simp only [decide_eq_true_eq]
      exact fun h => hne ⟨c, rfl, h⟩
  have hB : (circles.filter
      (fun c => decide (some c ≠ ini) && decide (some c ≠ fin))).countP
      (fun c => decide (fin = some c)) = 0 := by
    rw [List.countP_eq_zero]
    intro c hc
    have h1 := (List.mem_filter.mp hc).2
    rw [Bool.and_eq_true, decide_eq_true_eq, decide_eq_true_eq] at h1
    simp only [decide_eq_true_eq]
    exact fun h => h1.2 h.symm
  rw [hA, hB]
  cases fin with
  | none => simp
  | some f => simp [List.countP_cons]

theorem mkStateInfo_head_ini (circles : List Circle)
    (ini fin : Option Circle) (s : Circle) (hs : ini = some s) :
    ∃ st, (mkStateInfo ini fin
        (reorder_states circles ini fin)).head? = some st ∧
      "Initial" ∈ st.type ∧ circOf st = s := by
  subst hs
  exact ⟨⟨0, stateTypes (some s) fin s, (s.x, s.y), s.r⟩, rfl,
    (mem_initial_stateTypes _ _ _).mpr rfl, rfl⟩

theorem mkStateInfo_last_fin (circles : List Circle)
    (ini fin : Option Circle) (s : Circle) (hs : fin = some s) :
    ∃ st, (mkStateInfo ini fin
        (reorder_states circles ini fin)).getLast? = some st ∧
      "Final" ∈ st.type ∧ circOf st = s := by
  subst hs
  have hre : reorder_states circles ini (some s) =
      (ini.toList ++ circles.filter
        (fun c => decide (some c ≠ ini) && decide (some c ≠ some s)))
        ++ [s] := by
    rw [reorder_states]
    rfl
  rw [mkStateInfo, hre, mkStateInfoFrom_append]
  refine ⟨⟨0 + (ini.toList ++ circles.filter
      (fun c => decide (some c ≠ ini) && decide (some c ≠ some s))).length,
      stateTypes ini (some s) s, (s.x, s.y), s.r⟩, ?_,
    (mem_final_stateTypes _ _ _).mpr rfl, rfl⟩
  exact List.getLast?_concat _

/-! ### Claim C5 -/

/-- C5: for every successful pipeline run, the returned states list has
ids `0..n-1` by position, its circle sequence is exactly the reordering
rule applied to the detected circles (initial designate first, the other
candidates in original detection order, final designate last), the head
is `Initial`-tagged whenever an initial designate exists, and the last
element is `Final`-tagged whenever a final designate exists. -/
theorem claim_c5 (decodeOk : Bool) (circles : List Circle)
    (iniLines : List Seg) (score : Circle → Nat)
    (contourCount : Circle → Nat × Nat) (transLines : List Seg)
    (classify : Int × Int → String) (renderOk : Bool) (g : FsaGraph)
    (hok : process_fsa_image decodeOk circles iniLines score contourCount
      transLines classify renderOk = .ok g) :
    g.states.map (fun st => st.id) = List.range g.states.length ∧
    g.states.map circOf =
      reorder_states circles (detect_initial_state_arrow circles iniLines)
        (detect_double_circles circles score contourCount) ∧
    (∀ s, detect_initial_state_arrow circles iniLines = some s →
      ∃ st, g.states.head? = some st ∧ "Initial" ∈ st.type ∧
        circOf st = s) ∧
    (∀ s, detect_double_circles circles score contourCount = some s →
      ∃ st, g.states.getLast? = some st ∧ "Final" ∈ st.type ∧
        circOf st = s) := by
  obtain ⟨hg, -, -, -⟩ := process_ok_inv hok
  subst hg
  rw [assemble_states]
  refine ⟨?_, ?_, ?_, ?_⟩
  · rw [mkStateInfo, mkStateInfoFrom_map_id, mkStateInfoFrom_length,
      List.range_eq_range']
  · exact mkStateInfoFrom_map_circ _ _ 0 _
  · intro s hs
    exact mkStateInfo_head_ini circles _ _ s hs
  · intro s hs
    exact mkStateInfo_last_fin circles _ _ s hs

theorem claim_c5_witness :
    ([⟨0, ["Initial"], (100, 100), 40⟩,
      ⟨1, ["Normal"], (300, 100), 40⟩] : List StateInfo).map
        (fun st => st.id) = List.range 2 ∧
    ([⟨0, ["Initial"], (100, 100), 40⟩,
      ⟨1, ["Normal"], (300, 100), 40⟩] : List StateInfo).map circOf =
      [⟨100, 100, 40⟩, ⟨300, 100, 40⟩] := by
  have h := claim_c5 true [⟨100, 100, 40⟩, ⟨300, 100, 40⟩]
    [⟨0, 0, 10, 0⟩] (fun _ => 0) (fun _ => (1, 1))
    [⟨140, 100, 260, 100⟩] (fun _ => "") true
    ⟨[⟨0, ["Initial"], (100, 100), 40⟩, ⟨1, ["Normal"], (300, 100), 40⟩],
      [⟨0, 1, ""⟩]⟩ rfl
  exact ⟨h.1, h.2.1⟩

/-! ### Claim C4 -/

/-- C4 (amended): in every returned states list, every state carries at
least one tag and carries `Normal` exactly when it carries neither
`Initial` nor `Final` — in all cases; and provided the initial designate
and the final designate are not the same candidate, at most one state
carries the `Initial` tag and at most one carries the `Final` tag.
(When both designates coincide, that candidate is listed twice and both
copies carry both tags, see the counterexample.) -/
theorem claim_c4_amended (decodeOk : Bool) (circles : List Circle)
    (iniLines : List Seg) (score : Circle → Nat)
    (contourCount : Circle → Nat × Nat) (transLines : List Seg)
    (classify : Int × Int → String) (renderOk : Bool) (g : FsaGraph)
    (hok : process_fsa_image decodeOk circles iniLines score contourCount
      transLines classify renderOk = .ok g) :
    (∀ st ∈ g.states, st.type ≠ [] ∧
      ("Normal" ∈ st.type ↔
        ("Initial" ∉ st.type ∧ "Final" ∉ st.type))) ∧
    ((¬ ∃ s, detect_initial_state_arrow circles iniLines = some s ∧
        detect_double_circles circles score contourCount = some s) →
      g.states.countP (fun st => decide ("Initial" ∈ st.type)) ≤ 1 ∧
      g.states.countP (fun st => decide ("Final" ∈ st.type)) ≤ 1) := by
  obtain ⟨hg, -, -, -⟩ := process_ok_inv hok
  subst hg
  rw [assemble_states, mkStateInfo]
  set A := detect_initial_state_arrow circles iniLines with hA
  set B := detect_double_circles circles score contourCount with hB
  refine ⟨?_, fun hne => ⟨?_, ?_⟩⟩
  · intro st hst
    obtain ⟨c, -, ht⟩ := mkStateInfoFrom_types _ _ 0 _ st hst
    rw [ht]
    refine ⟨stateTypes_ne_nil _ _ _, ?_⟩
    simp [mem_normal_stateTypes, mem_initial_stateTypes,
      mem_final_stateTypes]
  · have h1 : (mkStateInfoFrom A B 0
        (reorder_states circles A B)).countP
        (fun st => decide ("Initial" ∈ st.type)) =
        (reorder_states circles A B).countP
          (fun c => decide ("Initial" ∈ stateTypes A B c)) :=
      mkStateInfoFrom_countP A B (fun ty => decide ("Initial" ∈ ty)) 0 _
    have hp : (fun c => decide ("Initial" ∈ stateTypes A B c)) =
        (fun c => decide (A = some c)) := by
      funext c
      rw [decide_eq_decide]
      exact mem_initial_stateTypes _ _ _
    rw [h1, hp]
    exact countP_reorder_initial circles _ _ hne
  · have h1 : (mkStateInfoFrom A B 0
        (reorder_states circles A B)).countP
        (fun st => decide ("Final" ∈ st.type)) =
        (reorder_states circles A B).countP
          (fun c => decide ("Final" ∈ stateTypes A B c)) :=
      mkStateInfoFrom_countP A B (fun ty => decide ("Final" ∈ ty)) 0 _
    have hp : (fun c => decide ("Final" ∈ stateTypes A B c)) =
        (fun c => decide (B = some c)) := by
      funext c
      rw [decide_eq_decide]
      exact mem_final_stateTypes _ _ _
    rw [h1, hp]
    exact countP_reorder_final circles _ _ hne

/-- C4 (counterexample): on a run where the single candidate is both the
initial designate (a near-horizontal stroke on its left) and the final
designate (positive ring score, one contour per ring mask), the returned
states list carries the `Initial` tag on two states, violating "at most
one state carries the Initial tag". -/
theorem claim_c4_counterexample :
    (process_fsa_image true [⟨100, 100, 40⟩] [⟨0, 0, 10, 0⟩]
        (fun _ => 1) (fun _ => (1, 1)) [] (fun _ => "") true).toOption.map
      (fun g => g.states.countP (fun st => decide ("Initial" ∈ st.type)))
      = some 2 := by decide

theorem claim_c4_witness :
    ([⟨0, ["Initial"], (100, 100), 40⟩,
        ⟨1, ["Normal"], (300, 100), 40⟩] : List StateInfo).countP
      (fun st => decide ("Initial" ∈ st.type)) ≤ 1 ∧
    ([⟨0, ["Initial"], (100, 100), 40⟩,
        ⟨1, ["Normal"], (300, 100), 40⟩] : List StateInfo).countP
      (fun st => decide ("Final" ∈ st.type)) ≤ 1 := by
  have h := claim_c4_amended true [⟨100, 100, 40⟩, ⟨300, 100, 40⟩]
    [⟨0, 0, 10, 0⟩] (fun _ => 0) (fun _ => (1, 1))
    [⟨140, 100, 260, 100⟩] (fun _ => "") true
    ⟨[⟨0, ["Initial"], (100, 100), 40⟩, ⟨1, ["Normal"], (300, 100), 40⟩],
      [⟨0, 1, ""⟩]⟩ rfl
  exact h.2 (by rintro ⟨s, -, h2⟩; exact Option.noConfusion h2)

/-! ### Claim C2 -/

/-- C2 (amended): when the same candidate `s` is selected as both the
initial designate and the final designate, the returned states list
contains `s` twice — once at index `0` and once at the last index — and
both occurrences are tagged with both `Initial` and `Final`; the
remaining candidates sit between the two copies in detection order. -/
theorem claim_c2_amended (decodeOk : Bool) (circles : List Circle)
    (iniLines : List Seg) (score : Circle → Nat)
    (contourCount : Circle → Nat × Nat) (transLines : List Seg)
    (classify : Int × Int → String) (renderOk : Bool) (g : FsaGraph)
    (s : Circle)
    (hok : process_fsa_image decodeOk circles iniLines score contourCount
      transLines classify renderOk = .ok g)
    (hini : detect_initial_state_arrow circles iniLines = some s)
    (hfin : detect_double_circles circles score contourCount = some s) :
    g.states.head? = some ⟨0, ["Initial", "Final"], (s.x, s.y), s.r⟩ ∧
    g.states.getLast? =
      some ⟨g.states.length - 1, ["Initial", "Final"], (s.x, s.y), s.r⟩ ∧
    g.states.map circOf =
      s :: circles.filter (fun c => decide (c ≠ s)) ++ [s] ∧
    2 ≤ g.states.length := by
  obtain ⟨hg, -, -, -⟩ := process_ok_inv hok
  subst hg
  rw [assemble_states, hini, hfin]
  have hst : stateTypes (some s) (some s) s = ["Initial", "Final"] := by
    simp [stateTypes]
  have hfil : circles.filter
      (fun c => decide (some c ≠ some s) && decide (some c ≠ some s)) =
      circles.filter (fun c => decide (c ≠ s)) := by
    apply List.filter_congr
    intro c _
    simp
  have hre : reorder_states circles (some s) (some s) =
      (s :: circles.filter (fun c => decide (c ≠ s))) ++ [s] := by
    rw [reorder_states, hfil]
    rfl
  have hlen : (mkStateInfo (some s) (some s)
      (reorder_states circles (some s) (some s))).length =
      (circles.filter (fun c => decide (c ≠ s))).length + 2 := by
    rw [mkStateInfo, mkStateInfoFrom_length, hre]
    simp
  refine ⟨?_, ?_, ?_, ?_⟩
  · rw [mkStateInfo, hre]
    rw [List.cons_append, mkStateInfoFrom, hst]
    rfl
  · rw [hlen]
    have h2 : (circles.filter (fun c => decide (c ≠ s))).length + 2 - 1 =
        (circles.filter (fun c => decide (c ≠ s))).length + 1 := by omega
    rw [h2, mkStateInfo, hre, mkStateInfoFrom_append]
    have h3 : mkStateInfoFrom (some s) (some s)
        (0 + (s :: circles.filter (fun c => decide (c ≠ s))).length) [s] =
        [⟨(circles.filter (fun c => decide (c ≠ s))).length + 1,
          ["Initial", "Final"], (s.x, s.y), s.r⟩] := by
      rw [mkStateInfoFrom, mkStateInfoFrom, hst]
      have h4 : 0 + (s :: circles.filter (fun c => decide (c ≠ s))).length =
          (circles.filter (fun c => decide (c ≠ s))).length + 1 := by
        rw [List.length_cons]
        omega
      rw [h4]
    rw [h3, List.getLast?_concat]
  · rw [mkStateInfo, mkStateInfoFrom_map_circ, hre]
  · rw [hlen]
    omega

/-- C2 (counterexample): with a single candidate that is both the
initial and the final designate, the returned states list contains that
candidate twice (ids 0 and 1), not exactly once as the claim states. -/
theorem claim_c2_counterexample :
    (process_fsa_image true [⟨100, 100, 30⟩] [⟨0, 0, 10, 0⟩]
        (fun _ => 1) (fun _ => (1, 1)) [] (fun _ => "") true).toOption.map
      (fun g => g.states.map circOf)
      = some [⟨100, 100, 30⟩, ⟨100, 100, 30⟩] := by decide

theorem claim_c2_witness :
    ([⟨0, ["Initial", "Final"], (100, 100), 30⟩,
        ⟨1, ["Initial", "Final"], (100, 100), 30⟩] :
      List StateInfo).head? =
      some ⟨0, ["Initial", "Final"], (100, 100), 30⟩ ∧
    ([⟨0, ["Initial", "Final"], (100, 100), 30⟩,
        ⟨1, ["Initial", "Final"], (100, 100), 30⟩] :
      List StateInfo).getLast? =
      some ⟨1, ["Initial", "Final"], (100, 100), 30⟩ ∧
    ([⟨0, ["Initial", "Final"], (100, 100), 30⟩,
        ⟨1, ["Initial", "Final"], (100, 100), 30⟩] :
      List StateInfo).map circOf =
      ⟨100, 100, 30⟩ :: ([⟨100, 100, 30⟩] : List Circle).filter
        (fun c => decide (c ≠ ⟨100, 100, 30⟩)) ++ [⟨100, 100, 30⟩] ∧
    2 ≤ ([⟨0, ["Initial", "Final"], (100, 100), 30⟩,
        ⟨1, ["Initial", "Final"], (100, 100), 30⟩] :
      List StateInfo).length :=
  claim_c2_amended true [⟨100, 100, 30⟩] [⟨0, 0, 10, 0⟩] (fun _ => 1)
    (fun _ => (1, 1)) [] (fun _ => "") true
    ⟨[⟨0, ["Initial", "Final"], (100, 100), 30⟩,
        ⟨1, ["Initial", "Final"], (100, 100), 30⟩], []⟩
    ⟨100, 100, 30⟩ rfl rfl rfl

/-! ### Claim C3 -/

/-- C3 (counterexample): with identical detection results, the pipeline
returns the structured graph when the debug image is persisted, but
returns an error — no graph at all — when persisting it fails, so a
rendering failure does fail the overall recognition. -/
theorem claim_c3_counterexample :
    process_fsa_image true [⟨100, 100, 40⟩] [] (fun _ => 0)
        (fun _ => (1, 1)) [] (fun _ => "") true =
      .ok ⟨[⟨0, ["Normal"], (100, 100), 40⟩], []⟩ ∧
    process_fsa_image true [⟨100, 100, 40⟩] [] (fun _ => 0)
        (fun _ => (1, 1)) [] (fun _ => "") false =
      .error "failed to save debug image" := by
  constructor <;> rfl

/-- C3 (amended): the structured data is assembled before the debug
image is rendered and does not depend on the rendering outcome, but a
failure while persisting the debug image propagates out of the pipeline
(the surrounding `except` re-raises before `return fsa_data`), so no
graph is returned in that case. -/
theorem claim_c3_amended (circles : List Circle) (iniLines : List Seg)
    (score : Circle → Nat) (contourCount : Circle → Nat × Nat)
    (transLines : List Seg) (classify : Int × Int → String)
    (h : circles ≠ []) :
    process_fsa_image true circles iniLines score contourCount transLines
        classify false = .error "failed to save debug image" ∧
    process_fsa_image true circles iniLines score contourCount transLines
        classify true =
      .ok (assemble circles iniLines score contourCount transLines
        classify) := by
  constructor <;> (unfold process_fsa_image; simp [h])

theorem claim_c3_witness :
    process_fsa_image true [⟨100, 100, 40⟩, ⟨300, 100, 40⟩]
        [⟨0, 0, 10, 0⟩] (fun _ => 0) (fun _ => (1, 1))
        [⟨140, 100, 260, 100⟩] (fun _ => "") false =
      .error "failed to save debug image" ∧
    process_fsa_image true [⟨100, 100, 40⟩, ⟨300, 100, 40⟩]
        [⟨0, 0, 10, 0⟩] (fun _ => 0) (fun _ => (1, 1))
        [⟨140, 100, 260, 100⟩] (fun _ => "") true =
      .ok (assemble [⟨100, 100, 40⟩, ⟨300, 100, 40⟩] [⟨0, 0, 10, 0⟩]
        (fun _ => 0) (fun _ => (1, 1)) [⟨140, 100, 260, 100⟩]
        (fun _ => "")) :=
  claim_c3_amended [⟨100, 100, 40⟩, ⟨300, 100, 40⟩] [⟨0, 0, 10, 0⟩]
    (fun _ => 0) (fun _ => (1, 1)) [⟨140, 100, 260, 100⟩] (fun _ => "")
    (by decide)

/-! ### Transition lemmas for claims C1 and C10 -/

/-- Ordered index pair a transition contributes, as the source computes
it with `states.index`. -/
def pairOf (states : List Circle) (t : Trans) : Nat × Nat :=
  (idxOf states t.source, idxOf states t.destination)

theorem idxOf_lt_length (l : List Circle) (a : Circle) (h : a ∈ l) :
    idxOf l a < l.length := by
  induction l with
  | nil => exact absurd h (List.not_mem_nil a)
  | cons c rest ih =>
    rw [idxOf]
    by_cases hc : c = a
    · rw [if_pos hc]; simp
    · rw [if_neg hc, List.length_cons]
      have ha : a ∈ rest := by
        rcases List.mem_cons.mp h with h' | h'
        · exact absurd h'.symm hc
        · exact h'
      exact Nat.succ_lt_succ (ih ha)

theorem findNearestLoop_mem (px py : Int) :
    ∀ (l : List Circle) (best : Option (Circle × Int)) (c : Circle)
      (d : Int), findNearestLoop px py l best = some (c, d) →
      best = some (c, d) ∨ c ∈ l := by
  intro l
  induction l with
  | nil => intro best c d h; exact Or.inl h
  | cons a l ih =>
    intro best c d h
    by_cases ht : tol_ok (dist2 a.x a.y px py) a.r = true
    · cases best with
      | none =>
        rw [findNearestLoop, if_pos ht] at h
        rcases ih _ c d h with h' | h'
        · have h2 := Option.some.inj h'
          injection h2 with ha _
          subst ha
          exact Or.inr (List.mem_cons_self _ _)
        · exact Or.inr (List.mem_cons_of_mem _ h')
      | some bb =>
        obtain ⟨b, bd⟩ := bb
        rw [findNearestLoop, if_pos ht] at h
        by_cases hd : dist2 a.x a.y px py < bd
        · rw [if_pos hd] at h
          rcases ih _ c d h with h' | h'
          · have h2 := Option.some.inj h'
            injection h2 with ha _
            subst ha
            exact Or.inr (List.mem_cons_self _ _)
          · exact Or.inr (List.mem_cons_of_mem _ h')
        · rw [if_neg hd] at h
          rcases ih _ c d h with h' | h'
          · exact Or.inl h'
          · exact Or.inr (List.mem_cons_of_mem _ h')
    · cases best with
      | none =>
        rw [findNearestLoop, if_neg ht] at h
        rcases ih _ c d h with h' | h'
        · exact Or.inl h'
        · exact Or.inr (List.mem_cons_of_mem _ h')
      | some bb =>
        obtain ⟨b, bd⟩ := bb
        rw [findNearestLoop, if_neg ht] at h
        rcases ih _ c d h with h' | h'
        · exact Or.inl h'
        · exact Or.inr (List.mem_cons_of_mem _ h')

theorem findNearest_mem (states : List Circle) (px py : Int) (c : Circle)
    (h : findNearest states px py = some c) : c ∈ states := by
  rw [findNearest] at h
  obtain ⟨⟨c', d⟩, hl, hfx⟩ := Option.map_eq_some'.mp h
  have hc : c' = c := hfx
  rcases findNearestLoop_mem px py states none c' d hl with h' | h'
  · exact Option.noConfusion h'
  · exact hc ▸ h'

theorem detectLoop_cons_none1 (statesArg sorted : List Circle) (l : Seg)
    (rest : List Seg) (processed : List (Nat × Nat))
    (h1 : findNearest sorted (canonical l).x1 (canonical l).y1 = none) :
    detectLoop statesArg sorted (l :: rest) processed =
      detectLoop statesArg sorted rest processed := by
  rw [detectLoop, h1]

theorem detectLoop_cons_some_none (statesArg sorted : List Circle)
    (l : Seg) (rest : List Seg) (processed : List (Nat × Nat))
    (s : Circle)
    (h1 : findNearest sorted (canonical l).x1 (canonical l).y1 = some s)
    (h2 : findNearest sorted (canonical l).x2 (canonical l).y2 = none) :
    detectLoop statesArg sorted (l :: rest) processed =
      detectLoop statesArg sorted rest processed := by
  rw [detectLoop, h1, h2]

theorem detectLoop_cons_some_some (statesArg sorted : List Circle)
    (l : Seg) (rest : List Seg) (processed : List (Nat × Nat))
    (s d : Circle)
    (h1 : findNearest sorted (canonical l).x1 (canonical l).y1 = some s)
    (h2 : findNearest sorted (canonical l).x2 (canonical l).y2 = some d) :
    detectLoop statesArg sorted (l :: rest) processed =
      if s = d then detectLoop statesArg sorted rest processed
      else if (idxOf statesArg s, idxOf statesArg d) ∈ processed then
        detectLoop statesArg sorted rest processed
      else
        ⟨s, d, (canonical l).x1, (canonical l).y1, (canonical l).x2,
            (canonical l).y2,
            (((canonical l).x1 + (canonical l).x2).fdiv 2,
              ((canonical l).y1 + (canonical l).y2).fdiv 2 - 20)⟩ ::
          detectLoop statesArg sorted rest
            ((idxOf statesArg s, idxOf statesArg d) :: processed) := by
  rw [detectLoop, h1, h2]

theorem detectLoop_mem (statesArg sorted : List Circle) :
    ∀ (ls : List Seg) (processed : List (Nat × Nat)) (t : Trans),
      t ∈ detectLoop statesArg sorted ls processed →
      t.source ∈ sorted ∧ t.destination ∈ sorted := by
  intro ls
  induction ls with
  | nil => intro processed t h; exact absurd h (by simp [detectLoop])
  | cons l rest ih =>
    intro processed t h
    rcases h1 : findNearest sorted (canonical l).x1 (canonical l).y1
      with - | s
    · rw [detectLoop_cons_none1 _ _ _ _ _ h1] at h
      exact ih _ _ h
    rcases h2 : findNearest sorted (canonical l).x2 (canonical l).y2
      with - | d
    · rw [detectLoop_cons_some_none _ _ _ _ _ _ h1 h2] at h
      exact ih _ _ h
    rw [detectLoop_cons_some_some _ _ _ _ _ _ _ h1 h2] at h
    by_cases hsd : s = d
    · rw [if_pos hsd] at h
      exact ih _ _ h
    rw [if_neg hsd] at h
    by_cases hp : (idxOf statesArg s, idxOf statesArg d) ∈ processed
    · rw [if_pos hp] at h
      exact ih _ _ h
    rw [if_neg hp] at h
    rcases List.mem_cons.mp h with h' | h'
    · subst h'
      exact ⟨findNearest_mem _ _ _ _ h1, findNearest_mem _ _ _ _ h2⟩
    · exact ih _ _ h'

theorem detectLoop_pairs (statesArg sorted : List Circle) :
    ∀ (ls : List Seg) (processed : List (Nat × Nat)),
      ((detectLoop statesArg sorted ls processed).map
        (pairOf statesArg)).Nodup ∧
      ∀ p ∈ (detectLoop statesArg sorted ls processed).map
        (pairOf statesArg), p ∉ processed := by
  intro ls
  induction ls with
  | nil => intro processed; simp [detectLoop]
  | cons l rest ih =>
    intro processed
    rcases h1 : findNearest sorted (canonical l).x1 (canonical l).y1
      with - | s
    · rw [detectLoop_cons_none1 _ _ _ _ _ h1]
      exact ih processed
    rcases h2 : findNearest sorted (canonical l).x2 (canonical l).y2
      with - | d
    · rw [detectLoop_cons_some_none _ _ _ _ _ _ h1 h2]
      exact ih processed
    rw [detectLoop_cons_some_some _ _ _ _ _ _ _ h1 h2]
    by_cases hsd : s = d
    · rw [if_pos hsd]
      exact ih processed
    rw [if_neg hsd]
    by_cases hp : (idxOf statesArg s, idxOf statesArg d) ∈ processed
    · rw [if_pos hp]
      exact ih processed
    rw [if_neg hp]
    obtain ⟨nd, hnotin⟩ :=
      ih ((idxOf statesArg s, idxOf statesArg d) :: processed)
    rw [List.map_cons]
    constructor
    · rw [List.nodup_cons]
      refine ⟨?_, nd⟩
      intro hmem
      exact hnotin _ hmem (List.mem_cons_self _ _)
    · intro p hp'
      rcases List.mem_cons.mp hp' with h' | h'
      · subst h'
        exact hp
      · intro hpp
        exact hnotin p h' (List.mem_cons_of_mem _ hpp)

theorem detect_transitions_mem (states : List Circle) (lines : List Seg)
    (t : Trans) (ht : t ∈ detect_transitions states lines) :
    t.source ∈ states ∧ t.destination ∈ states := by
  have h := detectLoop_mem states
    (List.insertionSort (fun a b => a.x ≤ b.x) states) lines [] t ht
  have hperm := List.perm_insertionSort
    (fun (a b : Circle) => a.x ≤ b.x) states
  exact ⟨hperm.mem_iff.mp h.1, hperm.mem_iff.mp h.2⟩

theorem mkTransDataFrom_pairs (states : List Circle)
    (classify : Int × Int → String) (total : Nat) :
    ∀ (i : Nat) (ts : List Trans),
      (mkTransDataFrom states classify total i ts).map
        (fun td => (td.source, td.destination)) =
        ts.map (pairOf states)
  | _, [] => rfl
  | i, t :: rest => by
      rw [mkTransDataFrom, List.map_cons, List.map_cons,
        mkTransDataFrom_pairs states classify total (i + 1) rest]
      rfl

theorem mkTransDataFrom_mem (states : List Circle)
    (classify : Int × Int → String) (total : Nat) :
    ∀ (i : Nat) (ts : List Trans) (td : TransData),
      td ∈ mkTransDataFrom states classify total i ts →
      ∃ t ∈ ts, td.source = idxOf states t.source ∧
        td.destination = idxOf states t.destination := by
  intro i ts
  induction ts generalizing i with
  | nil => intro td h; exact absurd h (by simp [mkTransDataFrom])
  | cons t rest ih =>
    intro td h
    rw [mkTransDataFrom, List.mem_cons] at h
    rcases h with h | h
    · exact ⟨t, List.mem_cons_self _ _, by rw [h], by rw [h]⟩
    · obtain ⟨t', ht', h1, h2⟩ := ih (i + 1) td h
      exact ⟨t', List.mem_cons_of_mem _ ht', h1, h2⟩

theorem mkStateInfo_exists_id (ini fin : Option Circle)
    (l : List Circle) (k : Nat) (hk : k < l.length) :
    ∃ st ∈ mkStateInfo ini fin l, st.id = k := by
  have h1 : k ∈ (mkStateInfo ini fin l).map (fun st => st.id) := by
    rw [mkStateInfo, mkStateInfoFrom_map_id, ← List.range_eq_range']
    exact List.mem_range.mpr hk
  obtain ⟨st, hst, hid⟩ := List.mem_map.mp h1
  exact ⟨st, hst, hid⟩

/-! ### Claim C1 -/

/-- C1 (amended): the pipeline never emits two transitions with the same
ordered `(source, destination)` pair — the deduplication set stores the
ordered index pair, so the pairs of the returned transitions are pairwise
distinct as ordered pairs (but two transitions may share the unordered
pair in opposite directions, see the counterexample). -/
theorem claim_c1_amended (decodeOk : Bool) (circles : List Circle)
    (iniLines : List Seg) (score : Circle → Nat)
    (contourCount : Circle → Nat × Nat) (transLines : List Seg)
    (classify : Int × Int → String) (renderOk : Bool) (g : FsaGraph)
    (hok : process_fsa_image decodeOk circles iniLines score contourCount
      transLines classify renderOk = .ok g) :
    (g.transitions.map (fun t => (t.source, t.destination))).Nodup := by
  obtain ⟨hg, -, -, -⟩ := process_ok_inv hok
  subst hg
  rw [assemble_transitions, mkTransDataFrom_pairs, sortTransBySourceX]
  have hperm := (List.perm_insertionSort
    (fun (a b : Trans) => a.source.x ≤ b.source.x)
    (detect_transitions (reorder_states circles
      (detect_initial_state_arrow circles iniLines)
      (detect_double_circles circles score contourCount))
      transLines)).map (pairOf (reorder_states circles
        (detect_initial_state_arrow circles iniLines)
        (detect_double_circles circles score contourCount)))
  rw [hperm.nodup_iff]
  exact (detectLoop_pairs _ _ transLines []).1

/-- C1 (counterexample): two opposite near-vertical segments between the
same two states produce the transitions `(0, 1)` and `(1, 0)` in one
returned graph — two distinct transitions whose unordered source and
destination pair is the same set. -/
theorem claim_c1_counterexample :
    (process_fsa_image true [⟨100, 100, 40⟩, ⟨100, 300, 40⟩] []
        (fun _ => 0) (fun _ => (1, 1))
        [⟨100, 150, 100, 250⟩, ⟨100, 250, 101, 150⟩] (fun _ => "")
        true).toOption.map
      (fun g => g.transitions.map (fun t => (t.source, t.destination)))
      = some [(0, 1), (1, 0)] ∧
    sameStatePairSet (0, 1) (1, 0) := by
  constructor
  · decide
  · exact Or.inr ⟨rfl, rfl⟩

theorem claim_c1_witness :
    (([⟨0, 1, ""⟩] : List TransData).map
      (fun t => (t.source, t.destination))).Nodup :=
  claim_c1_amended true [⟨100, 100, 40⟩, ⟨300, 100, 40⟩]
    [⟨0, 0, 10, 0⟩] (fun _ => 0) (fun _ => (1, 1))
    [⟨140, 100, 260, 100⟩] (fun _ => "") true
    ⟨[⟨0, ["Initial"], (100, 100), 40⟩, ⟨1, ["Normal"], (300, 100), 40⟩],
      [⟨0, 1, ""⟩]⟩ rfl

/-! ### Claim C10 -/

/-- C10: every transition in the returned graph has source and
destination that are valid positions in the returned states list and
that coincide with the `id` of a returned state (the label is a `String`
by the type of the `label` field). -/
theorem claim_c10 (decodeOk : Bool) (circles : List Circle)
    (iniLines : List Seg) (score : Circle → Nat)
    (contourCount : Circle → Nat × Nat) (transLines : List Seg)
    (classify : Int × Int → String) (renderOk : Bool) (g : FsaGraph)
    (hok : process_fsa_image decodeOk circles iniLines score contourCount
      transLines classify renderOk = .ok g) :
    ∀ td ∈ g.transitions,
      td.source < g.states.length ∧ td.destination < g.states.length ∧
      (∃ st ∈ g.states, st.id = td.source) ∧
      ∃ st ∈ g.states, st.id = td.destination := by
  obtain ⟨hg, -, -, -⟩ := process_ok_inv hok
  subst hg
  intro td htd
  rw [assemble_transitions] at htd
  obtain ⟨t, ht, hsrc, hdst⟩ := mkTransDataFrom_mem _ _ _ 0 _ td htd
  have ht2 : t ∈ detect_transitions
      (reorder_states circles
        (detect_initial_state_arrow circles iniLines)
        (detect_double_circles circles score contourCount))
      transLines := by
    rw [sortTransBySourceX] at ht
    exact (List.perm_insertionSort _ _).subset ht
  obtain ⟨hs, hd⟩ := detect_transitions_mem _ _ t ht2
  have hlen : (assemble circles iniLines score contourCount transLines
      classify).states.length =
      (reorder_states circles
        (detect_initial_state_arrow circles iniLines)
        (detect_double_circles circles score contourCount)).length := by
    rw [assemble_states, mkStateInfo, mkStateInfoFrom_length]
  have hslt := idxOf_lt_length _ _ hs
  have hdlt := idxOf_lt_length _ _ hd
  refine ⟨?_, ?_, ?_, ?_⟩
  · rw [hsrc, hlen]; exact hslt
  · rw [hdst, hlen]; exact hdlt
  · rw [assemble_states, hsrc]
    exact mkStateInfo_exists_id _ _ _ _ hslt
  · rw [assemble_states, hdst]
    exact mkStateInfo_exists_id _ _ _ _ hdlt

theorem claim_c10_witness :
    (0 : Nat) < 2 ∧ (1 : Nat) < 2 ∧
    (∃ st ∈ ([⟨0, ["Initial"], (100, 100), 40⟩,
        ⟨1, ["Normal"], (300, 100), 40⟩] : List StateInfo), st.id = 0) ∧
    ∃ st ∈ ([⟨0, ["Initial"], (100, 100), 40⟩,
        ⟨1, ["Normal"], (300, 100), 40⟩] : List StateInfo), st.id = 1 :=
  claim_c10 true [⟨100, 100, 40⟩, ⟨300, 100, 40⟩] [⟨0, 0, 10, 0⟩]
    (fun _ => 0) (fun _ => (1, 1)) [⟨140, 100, 260, 100⟩] (fun _ => "")
    true
    ⟨[⟨0, ["Initial"], (100, 100), 40⟩, ⟨1, ["Normal"], (300, 100), 40⟩],
      [⟨0, 1, ""⟩]⟩ rfl ⟨0, 1, ""⟩ (List.mem_cons_self _ _)

end FLAbot
